import Mathlib

/-!
Shallow embedding of `src/TubeProphet.py`.

The spec calls the Python `Video` class "Item", `views` "measure",
`days_up` "age_days", `avg_views` "avg_daily_growth", `fast_forward`
"AdvanceBy", `track_changes` "RunSimulation" and `days_threshold`
"horizon_days".

Numbers: Python's `/` is true division; we model numeric values with `ℚ`
(exact arithmetic), as the spec reasons algebraically about the growth
model.  Dates are modelled as integer day numbers, so
`(TODAY - upload_date).days` becomes `today - upload_date : ℤ`.

Display-only fields of the Python class (`years_up`, `pretty_date`) and
the pretty-printing methods are omitted: no claim touches them and they
do not feed back into the simulation.
-/

/-- An Item: Python class `Video` (src lines 16-33), with the fields the
simulation reads. `days_up` is the age in days, `avg_views` the derived
average daily growth, both computed once at construction. -/
structure Video where
  title : String
  views : ℚ
  days_up : ℤ
  avg_views : ℚ
deriving DecidableEq, Repr

/-- Construction of a `Video` (Python `Video.__init__`, src lines 20-33).
`upload_date` and `today` are day numbers; `days_up = today - upload_date`
models `(TODAY - self.upload_date).days`.  Python raises
`ZeroDivisionError` from `self.views / self.days_up` exactly when
`days_up == 0`; we model that with `Except`. -/
def Video.init (title : String) (views : ℚ) (upload_date today : ℤ) :
    Except String Video :=
  let days_up : ℤ := today - upload_date
  if days_up = 0 then Except.error "ZeroDivisionError"
  else Except.ok { title := title, views := views, days_up := days_up,
                   avg_views := views / (days_up : ℚ) }

/-- Python `Video.fast_forward` (src lines 67-72):
`self.views += self.avg_views * days`.  The growth rate `avg_views` is
never recomputed. -/
def Video.fast_forward (v : Video) (days : ℚ := 1) : Video :=
  { v with views := v.views + v.avg_views * days }

/-- Insert a video into a list that is kept in descending `views` order,
passing over strictly larger entries only, so an inserted element lands
before any element of equal `views` that was already there. -/
def insertDesc (v : Video) : List Video → List Video
  | [] => [v]
  | w :: ws => if v.views < w.views then w :: insertDesc v ws
               else v :: w :: ws

/-- Python `videos.sort(reverse=True, key=lambda v: v.views)`
(src line 123): a stable sort, descending by `views`; items with equal
`views` keep their pre-sort relative order (CPython's documented sort
stability, which also holds under `reverse=True`).  Modelled as a stable
insertion sort. -/
def sortVideos : List Video → List Video
  | [] => []
  | v :: vs => insertDesc v (sortVideos vs)

/-- The title list of a video list; the change detector (src line 130)
compares only titles. -/
def titles (vs : List Video) : List String :=
  vs.map Video.title

/-- The change check of src lines 129-133: scan rank positions and flag
if any position's title in the previous order differs from the title now
at that position. -/
def changed (prev cur : List String) : Bool :=
  (prev.zip cur).any fun p => p.1 != p.2

/-- Advance every video by one day (src lines 136-137). -/
def advanceAll (vs : List Video) : List Video :=
  vs.map (fun v => v.fast_forward 1)

/-- A snapshot emitted by the simulation: the printed day number
(`day + 1` for 0-based day index `day`) and the full sorted order at that
point. -/
structure Snapshot where
  day : Nat
  order : List Video
deriving DecidableEq, Repr

/-- The loop body of `track_changes` for day indices `day ≥ 1`
(src lines 122-137): sort, compare titles against the previous day's
order, emit on any difference, record the current order as the new
comparison baseline whether or not a report was emitted, then advance
every video one day.  `rem` is the number of loop iterations left. -/
def simAux : List Video → List String → Nat → Nat → List Snapshot
  | _, _, _, 0 => []
  | vs, prev, day, rem + 1 =>
    let s := sortVideos vs
    let t := titles s
    let rest := simAux (advanceAll s) t (day + 1) rem
    if changed prev t then ⟨day + 1, s⟩ :: rest else rest

/-- Python `track_changes` (src lines 109-137), the spec's
`RunSimulation`, as the sequence of emitted snapshots.  Day index 0
always emits the "Starting state (Day 1)" snapshot (src lines 125-127);
later days are handled by `simAux`.  `days_threshold` defaults to 100 as
in the source (src line 109). -/
def track_changes (videos : List Video) (days_threshold : Nat := 100) :
    List Snapshot :=
  match days_threshold with
  | 0 => []
  | rem + 1 =>
    let s := sortVideos videos
    ⟨1, s⟩ :: simAux (advanceAll s) (titles s) 1 rem

/-- The pre-sort state of the video list at the start of day index `d` of
the simulation loop: day 0 starts from the input list, and each day sorts
then advances every video by one day (src lines 122-137). -/
def stateBeforeSort (videos : List Video) : Nat → List Video
  | 0 => videos
  | d + 1 => advanceAll (sortVideos (stateBeforeSort videos d))

/-- The horizon `main` actually runs with (src lines 152-153, 174-175):
the `-d` flag is parsed into `args.d`, but `main` calls
`track_changes(videos)` without passing it, so the default
`days_threshold=100` (src line 109) is always used, whatever the flag
holds. -/
def mainHorizon (dFlag : Option ℤ) : Nat := 100

/-! ### Basic lemmas about the embedded operations -/

lemma fast_forward_title (v : Video) (d : ℚ) :
    (v.fast_forward d).title = v.title := rfl

lemma fast_forward_avg (v : Video) (d : ℚ) :
    (v.fast_forward d).avg_views = v.avg_views := rfl

lemma fast_forward_views (v : Video) (d : ℚ) :
    (v.fast_forward d).views = v.views + v.avg_views * d := rfl

lemma titles_advanceAll (vs : List Video) :
    titles (advanceAll vs) = titles vs := by
  simp [titles, advanceAll, Video.fast_forward]

lemma mem_insertDesc {x v : Video} {l : List Video} :
    x ∈ insertDesc v l ↔ x = v ∨ x ∈ l := by
  induction l with
  | nil => simp [insertDesc]
  | cons w ws ih =>
    by_cases h : v.views < w.views
    · simp only [insertDesc, if_pos h, List.mem_cons, ih]
      tauto
    · simp only [insertDesc, if_neg h, List.mem_cons]

lemma insertDesc_perm (v : Video) (l : List Video) :
    (insertDesc v l).Perm (v :: l) := by
  induction l with
  | nil => simp [insertDesc]
  | cons w ws ih =>
    by_cases h : v.views < w.views
    · simp only [insertDesc, if_pos h]
      exact (ih.cons w).trans (List.Perm.swap v w ws)
    · simp [insertDesc, if_neg h]

lemma sortVideos_perm (l : List Video) : (sortVideos l).Perm l := by
  induction l with
  | nil => simp [sortVideos]
  | cons v vs ih =>
    exact (insertDesc_perm v (sortVideos vs)).trans (ih.cons v)

lemma insertDesc_sorted {v : Video} {l : List Video}
    (hl : l.Sorted (fun a b => b.views ≤ a.views)) :
    (insertDesc v l).Sorted (fun a b => b.views ≤ a.views) := by
  induction l with
  | nil => simp [insertDesc]
  | cons w ws ih =>
    rw [List.sorted_cons] at hl
    by_cases h : v.views < w.views
    · rw [insertDesc, if_pos h, List.sorted_cons]
      refine ⟨fun x hx => ?_, ih hl.2⟩
      rcases mem_insertDesc.1 hx with rfl | hx
      · exact le_of_lt h
      · exact hl.1 x hx
    · rw [insertDesc, if_neg h, List.sorted_cons]
      push_neg at h
      refine ⟨fun x hx => ?_, by rw [List.sorted_cons]; exact hl⟩
      rcases List.mem_cons.1 hx with rfl | hx
      · exact h
      · exact le_trans (hl.1 x hx) h

lemma sortVideos_sorted (l : List Video) :
    (sortVideos l).Sorted (fun a b => b.views ≤ a.views) := by
  induction l with
  | nil => simp [sortVideos]
  | cons v vs ih => exact insertDesc_sorted ih

lemma filter_insertDesc (v : Video) (l : List Video) (q : ℚ) :
    (insertDesc v l).filter (fun x => decide (x.views = q)) =
      if v.views = q then
        v :: l.filter (fun x => decide (x.views = q))
      else l.filter (fun x => decide (x.views = q)) := by
  induction l with
  | nil => by_cases h : v.views = q <;> simp [insertDesc, h]
  | cons w ws ih =>
    by_cases h : v.views < w.views
    · have hwq : v.views = q → ¬(w.views = q) := by
        intro hv hw
        exact absurd (hw.trans hv.symm) (ne_of_gt h)
      rw [insertDesc, if_pos h]
      by_cases hv : v.views = q
      · have hw : ¬(w.views = q) := hwq hv
        simp only [List.filter_cons, decide_eq_true_eq, if_neg hw, ih,
          if_pos hv, hw, decide_eq_false_iff_not.2 hw]
        simp [hw]
      · by_cases hw : w.views = q <;>
          simp [List.filter_cons, hw, ih, hv]
    · rw [insertDesc, if_neg h]
      by_cases hv : v.views = q <;>
        simp [List.filter_cons, hv]

lemma filter_sortVideos (l : List Video) (q : ℚ) :
    (sortVideos l).filter (fun x => decide (x.views = q)) =
      l.filter (fun x => decide (x.views = q)) := by
  induction l with
  | nil => rfl
  | cons v vs ih =>
    rw [sortVideos, filter_insertDesc, List.filter_cons]
    by_cases hv : v.views = q <;> simp [hv, ih]

lemma sortVideos_eq_self {l : List Video}
    (hl : l.Sorted (fun a b => b.views ≤ a.views)) : sortVideos l = l := by
  induction l with
  | nil => rfl
  | cons v vs ih =>
    rw [List.sorted_cons] at hl
    rw [sortVideos, ih hl.2]
    cases vs with
    | nil => rfl
    | cons w ws =>
      have : ¬(v.views < w.views) :=
        not_lt.2 (hl.1 w (List.mem_cons_self w ws))
      rw [insertDesc, if_neg this]

lemma changed_self (t : List String) : changed t t = false := by
  induction t with
  | nil => rfl
  | cons a l ih => simpa [changed, List.zip] using ih

lemma set_get_self (l : List String) (i : Nat) (h : i < l.length) :
    l.set i (l.get ⟨i, h⟩) = l := by
  induction l generalizing i with
  | nil => simp at h
  | cons a t ih =>
    cases i with
    | zero => rfl
    | succ n => simpa using ih n (by simpa using h)

lemma iterate_fast_forward (N : Nat) (v : Video) :
    (fun w => w.fast_forward 1)^[N] v =
      { v with views := v.views + v.avg_views * N } := by
  induction N with
  | zero => simp
  | succ n ih =>
    rw [Function.iterate_succ_apply', ih]
    simp only [Video.fast_forward, Video.mk.injEq, true_and, and_true]
    push_cast
    ring

/-- C1: an Item constructed with measure `m` and age `a > 0` has
`avg_daily_growth = m / a`; `N` calls of `AdvanceBy(1)` give the same
state as a single `AdvanceBy(N)`, with measure `m + (m / a) * N` —
linear growth, because the rate is fixed at construction. -/
theorem advanceBy_linear (t : String) (m : ℚ) (a : ℤ) (ha : 0 < a)
    (v : Video) (hv : Video.init t m 0 a = Except.ok v)
    (N : Nat) (hN : 0 < N) :
    (fun w => w.fast_forward 1)^[N] v = v.fast_forward N ∧
    ((fun w => w.fast_forward 1)^[N] v).views = m + m / (a : ℚ) * N := by
  have hne : a - 0 ≠ 0 := by omega
  rw [Video.init] at hv
  simp only [hne, if_neg, reduceIte, Except.ok.injEq] at hv
  subst hv
  constructor
  · rw [iterate_fast_forward]
    simp [Video.fast_forward]
  · rw [iterate_fast_forward]
    simp

/-- Witness for `advanceBy_linear` at measure 6, age 2, N = 3. -/
theorem advanceBy_linear_witness :
    (fun w => w.fast_forward 1)^[3]
        (⟨"x", 6, 2, 3⟩ : Video) = Video.fast_forward ⟨"x", 6, 2, 3⟩ 3 ∧
    ((fun w => w.fast_forward 1)^[3] (⟨"x", 6, 2, 3⟩ : Video)).views =
      6 + 6 / ((2 : ℤ) : ℚ) * (3 : Nat) :=
  advanceBy_linear "x" 6 2 (by decide) ⟨"x", 6, 2, 3⟩ (by rw [Video.init]; norm_num) 3 (by decide)

/-- C7: constructing an Item whose acquired date equals the reference
date (`age_days = 0`) fails with the division-by-zero error instead of
producing an Item, and no successfully constructed Item has
`age_days = 0`. -/
theorem init_age_zero_fails (t : String) (m : ℚ) (u d : ℤ) :
    (d - u = 0 → Video.init t m u d = Except.error "ZeroDivisionError") ∧
    (∀ v : Video, Video.init t m u d = Except.ok v → v.days_up ≠ 0) := by
  constructor
  · intro h
    rw [Video.init]
    simp [h]
  · intro v hv
    rw [Video.init] at hv
    by_cases h : d - u = 0
    · simp [h] at hv
    · simp only [h, if_neg, reduceIte, Except.ok.injEq] at hv
      subst hv
      exact h

/-- Witness for `init_age_zero_fails`: acquiring on the reference day
itself. -/
theorem init_age_zero_fails_witness :
    Video.init "t" 1 5 5 = Except.error "ZeroDivisionError" :=
  (init_age_zero_fails "t" 1 5 5).1 (by decide)

/-- C10 counterexample: an item acquired one day after the reference date
with measure 0 is constructed without error, but its `avg_daily_growth`
is `0 / (-1) = 0`, which is not negative, and `AdvanceBy(1)` leaves its
measure unchanged rather than decreasing it. -/
theorem neg_age_zero_measure_cex :
    Video.init "t" 0 1 0 = Except.ok ⟨"t", 0, -1, 0⟩ ∧
    ¬ ((⟨"t", 0, -1, 0⟩ : Video).avg_views < 0) ∧
    ((⟨"t", 0, -1, 0⟩ : Video).fast_forward 1).views =
      (⟨"t", 0, -1, 0⟩ : Video).views := by
  refine ⟨?_, by norm_num, by norm_num [Video.fast_forward]⟩
  rw [Video.init]
  norm_num

/-- C10 amended: constructing an Item with `age_days < 0` raises no
error; it silently yields an Item with negative `age_days`, and whenever
its measure is positive its `avg_daily_growth` is negative and each
`AdvanceBy(1)` strictly decreases its measure. -/
theorem neg_age_silent (t : String) (m : ℚ) (u d : ℤ) (hage : d - u < 0) :
    ∃ v : Video, Video.init t m u d = Except.ok v ∧ v.days_up < 0 ∧
      (0 < m → v.avg_views < 0 ∧ (v.fast_forward 1).views < v.views) := by
  have hne : d - u ≠ 0 := ne_of_lt hage
  refine ⟨⟨t, m, d - u, m / ((d - u : ℤ) : ℚ)⟩, ?_, hage, ?_⟩
  · rw [Video.init]
    simp [hne]
  · intro hm
    have hcast : ((d - u : ℤ) : ℚ) < 0 := by exact_mod_cast hage
    have havg : m / ((d - u : ℤ) : ℚ) < 0 := div_neg_of_pos_of_neg hm hcast
    refine ⟨havg, ?_⟩
    simp only [Video.fast_forward, mul_one]
    linarith

/-- Witness for `neg_age_silent` at measure 5, acquired one day after the
reference date. -/
theorem neg_age_silent_witness :
    ∃ v : Video, Video.init "t" 5 1 0 = Except.ok v ∧ v.days_up < 0 ∧
      (0 < (5 : ℚ) → v.avg_views < 0 ∧ (v.fast_forward 1).views < v.views) :=
  neg_age_silent "t" 5 1 0 (by decide)

lemma simAux_step (vs : List Video) (prev : List String) (day rem : Nat) :
    simAux vs prev day (rem + 1) =
      (if changed prev (titles (sortVideos vs)) then
        [⟨day + 1, sortVideos vs⟩] else []) ++
      simAux (advanceAll (sortVideos vs)) (titles (sortVideos vs))
        (day + 1) rem := by
  rw [simAux]
  by_cases h : changed prev (titles (sortVideos vs)) <;> simp [h]

/-- C5: on every simulated day the comparison baseline handed to the next
day is that day's current sorted order, whether or not a snapshot was
emitted: the previous baseline only decides the emission at the current
day, and the snapshots emitted after the current day are the same for any
two baselines. -/
theorem last_reported_updates_daily (vs : List Video) (p1 p2 : List String)
    (day rem : Nat) :
    (∀ prev, simAux vs prev day (rem + 1) =
      (if changed prev (titles (sortVideos vs)) then
        [⟨day + 1, sortVideos vs⟩] else []) ++
      simAux (advanceAll (sortVideos vs)) (titles (sortVideos vs))
        (day + 1) rem) ∧
    (simAux vs p1 day (rem + 1)).filter (fun s => decide (s.day ≠ day + 1)) =
      (simAux vs p2 day (rem + 1)).filter (fun s => decide (s.day ≠ day + 1)) := by
  refine ⟨fun prev => simAux_step vs prev day rem, ?_⟩
  rw [simAux_step vs p1, simAux_step vs p2, List.filter_append,
    List.filter_append]
  congr 1
  by_cases h1 : changed p1 (titles (sortVideos vs)) <;>
    by_cases h2 : changed p2 (titles (sortVideos vs)) <;>
      simp [h1, h2]

/-- C8: when a day's sorted order has the same titles as the previous
order except that two rank positions holding equal titles are swapped,
the detector sees no difference: no snapshot is emitted for that day and
the run continues unchanged. -/
theorem dup_title_swap_silent (prev : List String) (i j : Nat)
    (hi : i < prev.length) (hj : j < prev.length)
    (ht : prev.get ⟨i, hi⟩ = prev.get ⟨j, hj⟩)
    (vs : List Video) (day rem : Nat)
    (hcur : titles (sortVideos vs) =
      (prev.set i (prev.get ⟨j, hj⟩)).set j (prev.get ⟨i, hi⟩)) :
    changed prev (titles (sortVideos vs)) = false ∧
    simAux vs prev day (rem + 1) =
      simAux (advanceAll (sortVideos vs)) (titles (sortVideos vs))
        (day + 1) rem := by
  have hswap : (prev.set i (prev.get ⟨j, hj⟩)).set j (prev.get ⟨i, hi⟩) =
      prev := by
    rw [← ht, set_get_self, ht, set_get_self]
  rw [hcur, hswap]
  refine ⟨changed_self prev, ?_⟩
  rw [simAux]
  simp only [← hcur.trans hswap, changed_self, Bool.false_eq_true, if_neg,
    reduceIte]

/-- Witness for `dup_title_swap_silent`: two videos both titled "t"
whose sorted order is the swap of the previous order. -/
theorem dup_title_swap_silent_witness :
    changed ["t", "t"]
      (titles (sortVideos [⟨"t", 4, 1, 1⟩, ⟨"t", 3, 1, 2⟩])) = false ∧
    simAux [⟨"t", 4, 1, 1⟩, ⟨"t", 3, 1, 2⟩] ["t", "t"] 1 (0 + 1) =
      simAux (advanceAll (sortVideos [⟨"t", 4, 1, 1⟩, ⟨"t", 3, 1, 2⟩]))
        (titles (sortVideos [⟨"t", 4, 1, 1⟩, ⟨"t", 3, 1, 2⟩])) (1 + 1) 0 :=
  dup_title_swap_silent ["t", "t"] 0 1 (by decide) (by decide) (by decide)
    [⟨"t", 4, 1, 1⟩, ⟨"t", 3, 1, 2⟩] 1 0 (by decide)

lemma advanceAll_const {g : ℚ} {vs : List Video}
    (hg : ∀ v ∈ vs, v.avg_views = g) :
    ∀ v ∈ advanceAll vs, v.avg_views = g := by
  intro v hv
  rw [advanceAll, List.mem_map] at hv
  obtain ⟨w, hw, rfl⟩ := hv
  rw [fast_forward_avg]
  exact hg w hw

lemma advanceAll_sorted_of_const {g : ℚ} {vs : List Video}
    (hg : ∀ v ∈ vs, v.avg_views = g)
    (hs : vs.Sorted (fun a b => b.views ≤ a.views)) :
    (advanceAll vs).Sorted (fun a b => b.views ≤ a.views) := by
  rw [advanceAll, List.Sorted, List.pairwise_map]
  refine List.Pairwise.imp_of_mem ?_ hs
  intro a b ha hb hab
  have hga := hg a ha
  have hgb := hg b hb
  simp only [fast_forward_views, mul_one]
  linarith

lemma simAux_nil_of_const_growth (g : ℚ) (k : Nat) :
    ∀ (vs : List Video) (day : Nat),
      (∀ v ∈ vs, v.avg_views = g) →
      vs.Sorted (fun a b => b.views ≤ a.views) →
      simAux vs (titles vs) day k = [] := by
  induction k with
  | zero => intro vs day _ _; rfl
  | succ n ih =>
    intro vs day hg hs
    rw [simAux_step, sortVideos_eq_self hs, changed_self]
    simp only [Bool.false_eq_true, if_neg, reduceIte, List.nil_append]
    have h2 := ih (advanceAll vs) (day + 1) (advanceAll_const hg)
      (advanceAll_sorted_of_const hg hs)
    rwa [titles_advanceAll] at h2

/-- C3: with a non-empty collection in which every item has the same
growth rate and initial measures are pairwise distinct, the run emits
exactly the single Day-1 starting snapshot, however long the horizon. -/
theorem const_growth_single_snapshot (vs : List Video) (g : ℚ)
    (hne : vs ≠ []) (hg : ∀ v ∈ vs, v.avg_views = g)
    (hd : vs.Pairwise (fun a b => a.views ≠ b.views))
    (h : Nat) (hh : 1 ≤ h) :
    track_changes vs h = [⟨1, sortVideos vs⟩] := by
  obtain ⟨r, rfl⟩ : ∃ r, h = r + 1 := ⟨h - 1, by omega⟩
  have e : track_changes vs (r + 1) =
      ⟨1, sortVideos vs⟩ ::
        simAux (advanceAll (sortVideos vs)) (titles (sortVideos vs)) 1 r := rfl
  rw [e]
  have hgs : ∀ v ∈ sortVideos vs, v.avg_views = g :=
    fun v hv => hg v ((sortVideos_perm vs).mem_iff.1 hv)
  have hnil := simAux_nil_of_const_growth g r (advanceAll (sortVideos vs)) 1
    (advanceAll_const hgs)
    (advanceAll_sorted_of_const hgs (sortVideos_sorted vs))
  rw [titles_advanceAll] at hnil
  rw [hnil]

/-- Witness for `const_growth_single_snapshot`: two items, both with
growth 1, measures 5 and 3, horizon 3. -/
theorem const_growth_single_snapshot_witness :
    track_changes [⟨"a", 5, 1, 1⟩, ⟨"b", 3, 1, 1⟩] 3 =
      [⟨1, sortVideos [⟨"a", 5, 1, 1⟩, ⟨"b", 3, 1, 1⟩]⟩] :=
  const_growth_single_snapshot [⟨"a", 5, 1, 1⟩, ⟨"b", 3, 1, 1⟩] 1
    (by decide) (by decide) (by decide) 3 (by decide)

/-- C4: for any non-empty collection and horizon ≥ 1, the first emitted
snapshot is always the Day-1 starting snapshot, holding all the items
(a permutation of the input) sorted by measure descending; with horizon
exactly 1 it is the only snapshot. -/
theorem day_one_snapshot (vs : List Video) (hne : vs ≠ []) (h : Nat)
    (hh : 1 ≤ h) :
    (track_changes vs h).head? = some ⟨1, sortVideos vs⟩ ∧
    (sortVideos vs).Perm vs ∧
    (sortVideos vs).Sorted (fun a b => b.views ≤ a.views) ∧
    (h = 1 → track_changes vs h = [⟨1, sortVideos vs⟩]) := by
  obtain ⟨r, rfl⟩ : ∃ r, h = r + 1 := ⟨h - 1, by omega⟩
  refine ⟨rfl, sortVideos_perm vs, sortVideos_sorted vs, fun h1 => ?_⟩
  have : r = 0 := by omega
  subst this
  rfl

/-- Witness for `day_one_snapshot`: a single item at horizon 1. -/
theorem day_one_snapshot_witness :
    (track_changes [⟨"a", 2, 1, 2⟩] 1).head? =
        some ⟨1, sortVideos [⟨"a", 2, 1, 2⟩]⟩ ∧
    (sortVideos [⟨"a", 2, 1, 2⟩]).Perm [⟨"a", 2, 1, 2⟩] ∧
    (sortVideos [⟨"a", 2, 1, 2⟩]).Sorted (fun a b => b.views ≤ a.views) ∧
    (1 = 1 → track_changes [⟨"a", 2, 1, 2⟩] 1 =
      [⟨1, sortVideos [⟨"a", 2, 1, 2⟩]⟩]) :=
  day_one_snapshot [⟨"a", 2, 1, 2⟩] (by decide) 1 (by decide)

/-- C6: on every simulated day, the list produced by that day's sort is
in descending measure order, and the items of any given measure appear in
the same relative order as in that day's pre-sort list (stable
tie-break). -/
theorem daily_sort_sorted_stable (vs : List Video) (d : Nat) :
    (sortVideos (stateBeforeSort vs d)).Sorted
      (fun a b => b.views ≤ a.views) ∧
    ∀ q : ℚ, (sortVideos (stateBeforeSort vs d)).filter
        (fun x => decide (x.views = q)) =
      (stateBeforeSort vs d).filter (fun x => decide (x.views = q)) :=
  ⟨sortVideos_sorted _, fun q => filter_sortVideos _ q⟩

/-- C9 (bug evidence): `main` runs `track_changes` with the default
horizon 100 even when the `-d` flag carries another value; only the
defaulting half of the claim holds. -/
theorem main_horizon_ignores_flag :
    mainHorizon (some 5) = 100 ∧ mainHorizon none = 100 :=
  ⟨rfl, rfl⟩

/-- Item A of the spec's swap scenario: measure 100, 100 days old, hence
average daily growth 1. -/
def vidA : Video := ⟨"A", 100, 100, 1⟩

/-- Item B of the spec's swap scenario: measure 90, 18 days old, hence
average daily growth 5. -/
def vidB : Video := ⟨"B", 90, 18, 5⟩

lemma simAux_nil_two (k : Nat) :
    ∀ (x y : Video) (day : Nat), y.views < x.views →
      y.avg_views ≤ x.avg_views →
      simAux [x, y] [x.title, y.title] day k = [] := by
  induction k with
  | zero => intros; rfl
  | succ n ih =>
    intro x y day hv hg
    have hsort : sortVideos [x, y] = [x, y] := by
      simp [sortVideos, insertDesc, not_lt.2 hv.le]
    rw [simAux_step, hsort]
    have htit : titles [x, y] = [x.title, y.title] := rfl
    rw [htit, changed_self]
    simp only [Bool.false_eq_true, if_neg, reduceIte, List.nil_append]
    have h1 : (y.fast_forward 1).views < (x.fast_forward 1).views := by
      simp only [fast_forward_views, mul_one]
      linarith
    have h2 : (y.fast_forward 1).avg_views ≤ (x.fast_forward 1).avg_views := by
      simpa [fast_forward_avg] using hg
    exact ih (x.fast_forward 1) (y.fast_forward 1) (day + 1) h1 h2

/-- C2: in the two-item scenario (A: measure 100, growth 1; B: measure
90, growth 5, both as produced by the constructor) every horizon ≥ 4
emits exactly two snapshots: the Day-1 starting snapshot with A on top
and a Day-4 snapshot (day index 3) whose top title has changed to B;
days 2 and 3 emit nothing. -/
theorem two_item_swap_day4 (h : Nat) (hh : 4 ≤ h) :
    Video.init "A" 100 0 100 = Except.ok vidA ∧
    Video.init "B" 90 0 18 = Except.ok vidB ∧
    (track_changes [vidA, vidB] h).map
        (fun s => (s.day, titles s.order)) =
      [(1, ["A", "B"]), (4, ["B", "A"])] := by
  refine ⟨by rw [Video.init]; norm_num [vidA], ?_, ?_⟩
  · rw [Video.init]
    norm_num [vidB]
  obtain ⟨k, rfl⟩ : ∃ k, h = k + 4 := ⟨h - 4, by omega⟩
  have e1 : track_changes [vidA, vidB] (k + 4) =
      ⟨1, [vidA, vidB]⟩ ::
        simAux [⟨"A", 101, 100, 1⟩, ⟨"B", 95, 18, 5⟩] ["A", "B"] 1 (k + 3) := by
    with_unfolding_all rfl
  have e2 : simAux [⟨"A", 101, 100, 1⟩, ⟨"B", 95, 18, 5⟩] ["A", "B"] 1 (k + 3) =
      simAux [⟨"A", 102, 100, 1⟩, ⟨"B", 100, 18, 5⟩] ["A", "B"] 2 (k + 2) := by
    with_unfolding_all rfl
  have e3 : simAux [⟨"A", 102, 100, 1⟩, ⟨"B", 100, 18, 5⟩] ["A", "B"] 2 (k + 2) =
      simAux [⟨"A", 103, 100, 1⟩, ⟨"B", 105, 18, 5⟩] ["A", "B"] 3 (k + 1) := by
    with_unfolding_all rfl
  have e4 : simAux [⟨"A", 103, 100, 1⟩, ⟨"B", 105, 18, 5⟩] ["A", "B"] 3 (k + 1) =
      ⟨4, [⟨"B", 105, 18, 5⟩, ⟨"A", 103, 100, 1⟩]⟩ ::
        simAux [⟨"B", 110, 18, 5⟩, ⟨"A", 104, 100, 1⟩] ["B", "A"] 4 k := by
    with_unfolding_all rfl
  have hnil : simAux [⟨"B", 110, 18, 5⟩, ⟨"A", 104, 100, 1⟩] ["B", "A"] 4 k =
      [] :=
    simAux_nil_two k ⟨"B", 110, 18, 5⟩ ⟨"A", 104, 100, 1⟩ 4
      (by norm_num) (by norm_num)
  rw [e1, e2, e3, e4, hnil]
  decide

/-- Witness for `two_item_swap_day4` at the smallest allowed horizon 4. -/
theorem two_item_swap_day4_witness :
    Video.init "A" 100 0 100 = Except.ok vidA ∧
    Video.init "B" 90 0 18 = Except.ok vidB ∧
    (track_changes [vidA, vidB] 4).map
        (fun s => (s.day, titles s.order)) =
      [(1, ["A", "B"]), (4, ["B", "A"])] :=
  two_item_swap_day4 4 (by decide)
